import Mathlib

deriving instance DecidableEq for Except

/-!
# Verification of the `ratelimiter` token-bucket limiter

Shallow embedding of `limiter.go` (package `ratelimiter`):

* Go `time.Time` and `time.Duration` values are integer nanosecond counts.
  `d.Nanoseconds()` is the identity; `now.Sub(l.lastTime)` saturates to the
  `Duration` (`int64`) range (`satDur`).
* Go integer division (`/` on `int64` / `time.Duration`) truncates toward
  zero, which is `Int.tdiv`, not Lean's Euclidean `/`.
* Go `int64` / 64-bit `int` arithmetic wraps in two's complement.  The
  refill computation of `limiter.go:74` exists here in two forms: the
  faithful machine model (`refillTokensI64`, `tryAcquireI64`,
  `runAttemptsI64`, `AcquireI64`), in which every `int64` operation wraps
  (`wrap64`), and the exact-arithmetic companion (`refillTokens`,
  `tryAcquire`, `runAttempts`, `Acquire`) with the wraps removed.  The
  bridge theorem `tryAcquireI64_eq_tryAcquire` (and its closures over
  sequences and acquire runs) proves the two coincide exactly when the
  attempt's arithmetic stays inside `int64` — the `stepsOK` bound — and
  the capacity-bound and refill claims are settled against the faithful
  model.  Claims stated at a frozen clock or about pure control flow use
  the exact companion, whose values coincide with the machine's there.
* `tryAcquire` is mutex-protected in the source, so each attempt is atomic;
  concurrent executions are modelled as arbitrary serializations
  (interleavings) of atomic attempts.
* `Acquire`'s blocking loop is driven by an oracle list of events, one per
  loop iteration: the `clock.Now()` reading consumed by that iteration's
  `tryAcquire`, and which arm of the `select` fires first when the attempt
  fails.  The context's `ctx.Err()` reason is an opaque `Int` code.  The
  model also returns the list of durations passed to `clock.After`, which in
  the source is invoked exactly once per failed attempt (when the `select`
  is entered, both channel expressions are evaluated).
-/

namespace Ratelimiter

/-- The `Limiter` struct of `limiter.go` (the `sync.Mutex` field has no
data content and is represented by the atomicity of `tryAcquire`):
`lastTime time.Time`, `tokens int`, `window time.Duration`, `rate int`. -/
structure Limiter where
  lastTime : Int
  tokens : Int
  window : Int
  rate : Int
  deriving Repr, DecidableEq

/-- `New(rate int, window time.Duration)`: builds the limiter with
`window: window, rate: rate, lastTime: clock.Now(), tokens: rate`.
The clock reading `clock.Now()` is passed explicitly as `now`.
There is no validation of the arguments. -/
def New (rate window now : Int) : Limiter :=
  { window := window, rate := rate, lastTime := now, tokens := rate }

/-- The refill-and-clamp segment of `tryAcquire`:
`l.tokens += int(elapsed.Nanoseconds() * int64(l.rate) / l.window.Nanoseconds())`
followed by `l.tokens = min(l.tokens, l.rate)`, where
`elapsed := now.Sub(l.lastTime)` — in exact (non-wrapping) integer
arithmetic.  The faithful `int64` form is `refillTokensI64`; the two agree
whenever the attempt's arithmetic stays inside `int64`
(`tryAcquireI64_eq_tryAcquire`). -/
def refillTokens (l : Limiter) (now : Int) : Int :=
  min (l.tokens + Int.tdiv ((now - l.lastTime) * l.rate) l.window) l.rate

/-- `tryAcquire()` with the `clock.Now()` reading passed explicitly:
updates `lastTime` to `now`, refills and clamps `tokens`, then returns
`false` if `tokens <= 0`, otherwise decrements `tokens` and returns `true`. -/
def tryAcquire (l : Limiter) (now : Int) : Bool × Limiter :=
  let t := refillTokens l now
  if t ≤ 0 then
    (false, { l with lastTime := now, tokens := t })
  else
    (true, { l with lastTime := now, tokens := t - 1 })

/-- Which arm of the `select` in `Acquire` fires first when the attempt
failed: the context's `Done` channel, or the `clock.After` timer. -/
inductive SelectOutcome where
  | ctxDone
  | timerFired
  deriving Repr, DecidableEq

/-- One iteration of `Acquire`'s loop, as oracle input: the `clock.Now()`
reading used by that iteration's `tryAcquire`, and the `select` outcome
used if the attempt fails. -/
structure AcquireEvent where
  now : Int
  sel : SelectOutcome
  deriving Repr, DecidableEq

/-- The duration passed to `clock.After` in `Acquire`:
`l.window / time.Duration(l.rate)` (truncating integer division). -/
def waitInterval (l : Limiter) : Int :=
  Int.tdiv l.window l.rate

/-- `Acquire(ctx)`: loops `tryAcquire`; on success returns `nil`
(`Except.ok ()`); on failure enters the `select`, invoking `clock.After`
with `waitInterval`, and either returns `ctx.Err()` (`Except.error ctxErr`)
or retries.  Returns the result (`none` when the oracle list runs out with
the loop still running), the final limiter state, and the durations passed
to `clock.After`, in order. -/
def Acquire (ctxErr : Int) : Limiter → List AcquireEvent →
    Option (Except Int Unit) × Limiter × List Int
  | l, [] => (none, l, [])
  | l, e :: rest =>
    match tryAcquire l e.now with
    | (true, l1) => (some (Except.ok ()), l1, [])
    | (false, l1) =>
      match e.sel with
      | SelectOutcome.ctxDone => (some (Except.error ctxErr), l1, [waitInterval l1])
      | SelectOutcome.timerFired =>
        let r := Acquire ctxErr l1 rest
        (r.1, r.2.1, waitInterval l1 :: r.2.2)

/-- A sequence of completed `tryAcquire` attempts, one per clock reading,
threading the limiter state. -/
def runAttempts : Limiter → List Int → Limiter
  | l, [] => l
  | l, now :: rest => runAttempts (tryAcquire l now).2 rest

/-- Like `runAttempts`, additionally counting the successful attempts
(immediate grants). -/
def runCount : Limiter → List Int → Nat × Limiter
  | l, [] => (0, l)
  | l, now :: rest =>
    match tryAcquire l now with
    | (ok, l1) =>
      let r := runCount l1 rest
      (if ok then r.1 + 1 else r.1, r.2)

/-- Two's-complement wrap of an integer into the `int64` range
`[-2^63, 2^63)`: the result of every Go `int64` (and 64-bit `int`)
arithmetic operation. -/
def wrap64 (x : Int) : Int :=
  (x + 9223372036854775808) % 18446744073709551616 - 9223372036854775808

/-- `time.Time.Sub` saturates (rather than wraps) when the difference does
not fit a `time.Duration` (`int64` nanoseconds). -/
def satDur (x : Int) : Int :=
  max (min x 9223372036854775807) (-9223372036854775808)

/-- The refill-and-clamp segment of `tryAcquire` with Go's machine
arithmetic made explicit: `elapsed := now.Sub(l.lastTime)` saturates to the
`Duration` range; the product `elapsed.Nanoseconds() * int64(l.rate)`
wraps; the `int64` quotient wraps (only the `minInt64 / -1` case);
the addition `l.tokens += int(...)` wraps (64-bit `int`); `min` does not
overflow.  `refillTokens` is this computation with the wraps removed; the
two agree whenever the attempt stays within `int64`
(`tryAcquireI64_eq_tryAcquire`). -/
def refillTokensI64 (l : Limiter) (now : Int) : Int :=
  min (wrap64 (l.tokens +
    wrap64 (Int.tdiv (wrap64 (satDur (now - l.lastTime) * l.rate)) l.window))) l.rate

/-- `tryAcquire()` under the faithful `int64` arithmetic of
`refillTokensI64` (the decrement cannot wrap: it only runs when
`0 < tokens`). -/
def tryAcquireI64 (l : Limiter) (now : Int) : Bool × Limiter :=
  let t := refillTokensI64 l now
  if t ≤ 0 then
    (false, { l with lastTime := now, tokens := t })
  else
    (true, { l with lastTime := now, tokens := t - 1 })

/-- `runAttempts` under the faithful `int64` arithmetic. -/
def runAttemptsI64 : Limiter → List Int → Limiter
  | l, [] => l
  | l, now :: rest => runAttemptsI64 (tryAcquireI64 l now).2 rest

/-- `Acquire` under the faithful `int64` arithmetic. -/
def AcquireI64 (ctxErr : Int) : Limiter → List AcquireEvent →
    Option (Except Int Unit) × Limiter × List Int
  | l, [] => (none, l, [])
  | l, e :: rest =>
    match tryAcquireI64 l e.now with
    | (true, l1) => (some (Except.ok ()), l1, [])
    | (false, l1) =>
      match e.sel with
      | SelectOutcome.ctxDone => (some (Except.error ctxErr), l1, [waitInterval l1])
      | SelectOutcome.timerFired =>
        let r := AcquireI64 ctxErr l1 rest
        (r.1, r.2.1, waitInterval l1 :: r.2.2)

/-- Per-attempt safety condition on a list of clock readings for a limiter
of capacity `r`: readings are non-decreasing (the clock's monotonicity
guarantee), and each step's `(elapsed + 1) * r` stays within `int64`, so
no operation of that step's refill computation overflows (the `+ 1`
accounts for the up-to-`r` tokens already in the bucket when the wrapped
quotient is added). -/
def stepsOK (r : Int) (t : Int) : List Int → Bool
  | [] => true
  | x :: xs =>
    decide (t ≤ x) && decide ((x - t + 1) * r ≤ 9223372036854775807) && stepsOK r x xs

/-- `monoFrom t nows`: the clock readings `nows` are non-decreasing, starting
at or after `t`.  This is the "monotonic-enough wall time" guarantee of the
clock collaborator (Go's `time.Now` monotonic reading never decreases within
one process). -/
def monoFrom (t : Int) : List Int → Bool
  | [] => true
  | x :: xs => decide (t ≤ x) && monoFrom x xs

/-- The event consumed by the `k`-th iteration of an `Acquire` loop run on
the oracle list `es` (an arbitrary default beyond the end of the list). -/
def eventAt (es : List AcquireEvent) (k : Nat) : AcquireEvent :=
  es.getD k ⟨0, SelectOutcome.timerFired⟩

/-- The limiter state seen at the start of the `k`-th iteration of an
`Acquire` loop started in state `l` with oracle list `es`: every iteration,
whether its attempt succeeds or fails, passes the state through one
`tryAcquire`. -/
def stateAt (l : Limiter) (es : List AcquireEvent) (k : Nat) : Limiter :=
  runAttempts l ((es.take k).map AcquireEvent.now)

/-- The `k`-th iteration's `tryAcquire` attempt fails (bucket empty). -/
def failsAt (l : Limiter) (es : List AcquireEvent) (k : Nat) : Bool :=
  !(tryAcquire (stateAt l es k) (eventAt es k).now).1

/-- The cancellation signal wins the race at iteration `i`, before any
attempt succeeds: iterations `0 .. i-1` all fail with the timer winning the
`select`, and iteration `i` fails with the `Done` channel winning. -/
def cancelSpec (l : Limiter) (es : List AcquireEvent) (i : Nat) : Prop :=
  i < es.length ∧
    (∀ j, j < i →
      failsAt l es j = true ∧ (eventAt es j).sel = SelectOutcome.timerFired) ∧
    failsAt l es i = true ∧ (eventAt es i).sel = SelectOutcome.ctxDone

/-- The private state invariant: token count within bounds, positive
capacity, positive window. -/
def Inv (l : Limiter) : Prop :=
  0 ≤ l.tokens ∧ l.tokens ≤ l.rate ∧ 1 ≤ l.rate ∧ 0 < l.window

/-! ## Basic lemmas about one attempt -/

theorem tryAcquire_pos (l : Limiter) (now : Int) (h : 0 < refillTokens l now) :
    tryAcquire l now = (true, { l with lastTime := now, tokens := refillTokens l now - 1 }) := by
  simp only [tryAcquire]
  rw [if_neg (by omega)]

theorem tryAcquire_nonpos (l : Limiter) (now : Int) (h : refillTokens l now ≤ 0) :
    tryAcquire l now = (false, { l with lastTime := now, tokens := refillTokens l now }) := by
  simp only [tryAcquire]
  rw [if_pos h]

theorem tryAcquire_snd (l : Limiter) (now : Int) :
    (tryAcquire l now).2 =
      { l with lastTime := now,
               tokens := if refillTokens l now ≤ 0 then refillTokens l now
                         else refillTokens l now - 1 } := by
  by_cases h : refillTokens l now ≤ 0
  · rw [tryAcquire_nonpos l now h, if_pos h]
  · rw [tryAcquire_pos l now (by omega), if_neg h]

theorem tryAcquire_frame (l : Limiter) (now : Int) :
    (tryAcquire l now).2.rate = l.rate ∧ (tryAcquire l now).2.window = l.window ∧
      (tryAcquire l now).2.lastTime = now := by
  rw [tryAcquire_snd]
  exact ⟨rfl, rfl, rfl⟩

theorem refillTokens_nonneg (l : Limiter) (now : Int) (h0 : 0 ≤ l.tokens)
    (hr : 1 ≤ l.rate) (hw : 0 < l.window) (hm : l.lastTime ≤ now) :
    0 ≤ refillTokens l now := by
  have he : 0 ≤ (now - l.lastTime) * l.rate := mul_nonneg (by omega) (by omega)
  have hd : 0 ≤ Int.tdiv ((now - l.lastTime) * l.rate) l.window :=
    Int.tdiv_nonneg he (by omega)
  exact le_min (by omega) (by omega)

theorem refillTokens_le (l : Limiter) (now : Int) : refillTokens l now ≤ l.rate :=
  min_le_right _ _

theorem refillTokens_self (l : Limiter) : refillTokens l l.lastTime = min l.tokens l.rate := by
  simp [refillTokens]

theorem tryAcquire_inv (l : Limiter) (now : Int) (h : Inv l) (hm : l.lastTime ≤ now) :
    Inv (tryAcquire l now).2 := by
  obtain ⟨h0, hle, hr, hw⟩ := h
  have hnn := refillTokens_nonneg l now h0 hr hw hm
  have hub := refillTokens_le l now
  rw [Inv, tryAcquire_snd]
  constructor
  · dsimp only
    split <;> omega
  · refine ⟨?_, hr, hw⟩
    dsimp only
    split <;> omega

/-! ## Sequences of attempts -/

theorem runAttempts_frame : ∀ (nows : List Int) (l : Limiter),
    (runAttempts l nows).rate = l.rate ∧ (runAttempts l nows).window = l.window
  | [], l => ⟨rfl, rfl⟩
  | now :: rest, l => by
    have hf := tryAcquire_frame l now
    have ih := runAttempts_frame rest (tryAcquire l now).2
    rw [runAttempts]
    exact ⟨ih.1.trans hf.1, ih.2.trans hf.2.1⟩

theorem runAttempts_inv : ∀ (nows : List Int) (l : Limiter),
    Inv l → monoFrom l.lastTime nows = true → Inv (runAttempts l nows)
  | [], l, h, _ => h
  | now :: rest, l, h, hmono => by
    rw [monoFrom, Bool.and_eq_true, decide_eq_true_eq] at hmono
    have hinv := tryAcquire_inv l now h hmono.1
    have hlast := (tryAcquire_frame l now).2.2
    rw [runAttempts]
    exact runAttempts_inv rest (tryAcquire l now).2 hinv (by rw [hlast]; exact hmono.2)

theorem runCount_snd : ∀ (nows : List Int) (l : Limiter),
    (runCount l nows).2 = runAttempts l nows
  | [], _ => rfl
  | now :: rest, l => by
    rw [runCount, runAttempts]
    exact runCount_snd rest (tryAcquire l now).2

/-- A successful attempt with no elapsed time, from a state with
`0 < tokens ≤ rate`: no tokens accrue, one is taken. -/
theorem tryAcquire_self_succ (t0 w r tk : Int) (h0 : 0 < tk) (hle : tk ≤ r) :
    tryAcquire ⟨t0, tk, w, r⟩ t0 = (true, ⟨t0, tk - 1, w, r⟩) := by
  have hrf : refillTokens ⟨t0, tk, w, r⟩ t0 = tk := by
    simp [refillTokens, min_eq_left hle]
  rw [tryAcquire_pos _ _ (by omega), hrf]

/-- A failed attempt with no elapsed time, from a state with
`tokens ≤ 0`: no tokens accrue, the attempt fails, and the token count
becomes `min tokens rate`. -/
theorem tryAcquire_self_fail (t0 w r tk : Int) (h0 : tk ≤ 0) :
    tryAcquire ⟨t0, tk, w, r⟩ t0 = (false, ⟨t0, min tk r, w, r⟩) := by
  have hrf : refillTokens ⟨t0, tk, w, r⟩ t0 = min tk r := by
    simp [refillTokens]
  rw [tryAcquire_nonpos _ _ (by rw [hrf]; exact le_trans (min_le_left _ _) h0), hrf]

theorem runCount_cons (l : Limiter) (now : Int) (rest : List Int) :
    runCount l (now :: rest) =
      (if (tryAcquire l now).1 then (runCount (tryAcquire l now).2 rest).1 + 1
       else (runCount (tryAcquire l now).2 rest).1,
       (runCount (tryAcquire l now).2 rest).2) := rfl

/-- Attempts with no clock advancement drain a full-enough bucket one token
per success: `i` attempts at the current `lastTime` from a state holding
`0 ≤ tk ≤ rate` tokens produce `min i tk` grants and leave `max (tk - i) 0`
tokens. -/
theorem runCount_const (w t0 r : Int) :
    ∀ (i : Nat) (tk : Int), 0 ≤ tk → tk ≤ r →
      (((runCount ⟨t0, tk, w, r⟩ (List.replicate i t0)).1 : Int) = min (i : Int) tk ∧
       (runCount ⟨t0, tk, w, r⟩ (List.replicate i t0)).2 = ⟨t0, max (tk - i) 0, w, r⟩)
  | 0, tk, h0, _ => by
    refine ⟨by simp [runCount]; omega, ?_⟩
    simp only [List.replicate, runCount]
    congr 1
    omega
  | i + 1, tk, h0, hle => by
    rw [List.replicate_succ, runCount_cons]
    by_cases htk : 0 < tk
    · rw [tryAcquire_self_succ t0 w r tk htk hle]
      obtain ⟨ih1, ih2⟩ := runCount_const w t0 r i (tk - 1) (by omega) (by omega)
      refine ⟨?_, ?_⟩
      · simp only [ih1]
        push_cast
        omega
      · rw [ih2]
        congr 1
        push_cast
        omega
    · have htk0 : tk = 0 := by omega
      subst htk0
      rw [tryAcquire_self_fail t0 w r 0 le_rfl, min_eq_left (by omega)]
      obtain ⟨ih1, ih2⟩ := runCount_const w t0 r i 0 le_rfl hle
      refine ⟨?_, ?_⟩
      · simp only [ih1]
        push_cast
        omega
      · rw [ih2]
        congr 1
        push_cast
        omega

/-! ## Equation lemmas for the acquire loop -/

theorem Acquire_nil (c : Int) (l : Limiter) : Acquire c l [] = (none, l, []) := rfl

theorem Acquire_cons_success (c : Int) (l : Limiter) (e : AcquireEvent)
    (rest : List AcquireEvent) (h : (tryAcquire l e.now).1 = true) :
    Acquire c l (e :: rest) = (some (Except.ok ()), (tryAcquire l e.now).2, []) := by
  have h2 : tryAcquire l e.now = (true, (tryAcquire l e.now).2) := Prod.ext h rfl
  rw [Acquire, h2]

theorem Acquire_cons_cancel (c : Int) (l : Limiter) (e : AcquireEvent)
    (rest : List AcquireEvent) (h : (tryAcquire l e.now).1 = false)
    (hs : e.sel = SelectOutcome.ctxDone) :
    Acquire c l (e :: rest) =
      (some (Except.error c), (tryAcquire l e.now).2,
        [waitInterval (tryAcquire l e.now).2]) := by
  have h2 : tryAcquire l e.now = (false, (tryAcquire l e.now).2) := Prod.ext h rfl
  rw [Acquire, h2, hs]

theorem Acquire_cons_timer (c : Int) (l : Limiter) (e : AcquireEvent)
    (rest : List AcquireEvent) (h : (tryAcquire l e.now).1 = false)
    (hs : e.sel = SelectOutcome.timerFired) :
    Acquire c l (e :: rest) =
      ((Acquire c (tryAcquire l e.now).2 rest).1,
       (Acquire c (tryAcquire l e.now).2 rest).2.1,
       waitInterval (tryAcquire l e.now).2 ::
         (Acquire c (tryAcquire l e.now).2 rest).2.2) := by
  have h2 : tryAcquire l e.now = (false, (tryAcquire l e.now).2) := Prod.ext h rfl
  rw [Acquire, h2, hs]

theorem acquire_frame (c : Int) : ∀ (es : List AcquireEvent) (l : Limiter),
    (Acquire c l es).2.1.rate = l.rate ∧ (Acquire c l es).2.1.window = l.window
  | [], l => ⟨rfl, rfl⟩
  | e :: rest, l => by
    have hf := tryAcquire_frame l e.now
    by_cases h : (tryAcquire l e.now).1 = true
    · rw [Acquire_cons_success c l e rest h]
      exact ⟨hf.1, hf.2.1⟩
    · have h' : (tryAcquire l e.now).1 = false := by
        cases hb : (tryAcquire l e.now).1
        · rfl
        · exact absurd hb h
      cases hs : e.sel
      · rw [Acquire_cons_cancel c l e rest h' hs]
        exact ⟨hf.1, hf.2.1⟩
      · rw [Acquire_cons_timer c l e rest h' hs]
        have ih := acquire_frame c rest (tryAcquire l e.now).2
        exact ⟨ih.1.trans hf.1, ih.2.trans hf.2.1⟩

theorem acquire_waits (c : Int) : ∀ (es : List AcquireEvent) (l : Limiter) (d : Int),
    d ∈ (Acquire c l es).2.2 → d = Int.tdiv l.window l.rate
  | [], l, d => by
    rw [Acquire_nil]
    intro hd
    exact absurd hd (List.not_mem_nil d)
  | e :: rest, l, d => by
    intro hd
    have hf := tryAcquire_frame l e.now
    have hwl : waitInterval (tryAcquire l e.now).2 = Int.tdiv l.window l.rate := by
      rw [waitInterval, hf.1, hf.2.1]
    by_cases h : (tryAcquire l e.now).1 = true
    · rw [Acquire_cons_success c l e rest h] at hd
      exact absurd hd (List.not_mem_nil d)
    · have h' : (tryAcquire l e.now).1 = false := by
        cases hb : (tryAcquire l e.now).1
        · rfl
        · exact absurd hb h
      cases hs : e.sel
      · rw [Acquire_cons_cancel c l e rest h' hs] at hd
        rw [List.mem_singleton.mp hd, hwl]
      · rw [Acquire_cons_timer c l e rest h' hs] at hd
        rcases List.mem_cons.mp hd with hd1 | hd2
        · rw [hd1, hwl]
        · have ih := acquire_waits c rest (tryAcquire l e.now).2 d hd2
          rw [ih, hf.1, hf.2.1]

/-- With the bucket empty (`tokens ≤ 0`) and no clock advancement (every
event reading equals the state's `lastTime`), the loop can never produce a
success, and as soon as it takes a single step it has invoked the timed
wait. -/
theorem acquire_stuck (c : Int) : ∀ (es : List AcquireEvent) (l : Limiter),
    l.tokens ≤ 0 → (∀ e ∈ es, e.now = l.lastTime) →
    (Acquire c l es).1 ≠ some (Except.ok ()) ∧
      (es ≠ [] → (Acquire c l es).2.2 ≠ [])
  | [], l, _, _ => by
    rw [Acquire_nil]
    exact ⟨by simp, fun h => absurd rfl h⟩
  | e :: rest, l, htk, hall => by
    have hnow : e.now = l.lastTime := hall e (List.mem_cons_self e rest)
    have hfail : tryAcquire l e.now = (false, ⟨l.lastTime, min l.tokens l.rate, l.window, l.rate⟩) := by
      rw [hnow]
      exact tryAcquire_self_fail l.lastTime l.window l.rate l.tokens htk
    have hfst : (tryAcquire l e.now).1 = false := by rw [hfail]
    cases hs : e.sel
    · rw [Acquire_cons_cancel c l e rest hfst hs]
      exact ⟨by simp, fun _ => by simp⟩
    · rw [Acquire_cons_timer c l e rest hfst hs]
      have ih := acquire_stuck c rest (tryAcquire l e.now).2
        (by rw [hfail]; exact le_trans (min_le_left _ _) htk)
        (by
          intro e2 he2
          rw [hfail]
          exact hall e2 (List.mem_cons_of_mem e he2))
      exact ⟨ih.1, fun _ => by simp⟩

/-! ## Bridging the faithful int64 model and the exact model -/

theorem wrap64_eq_self (x : Int) (h1 : -9223372036854775808 ≤ x)
    (h2 : x ≤ 9223372036854775807) : wrap64 x = x := by
  have h : (x + 9223372036854775808) % 18446744073709551616 =
      x + 9223372036854775808 := Int.emod_eq_of_lt (by omega) (by omega)
  rw [wrap64, h]
  omega

/-- One attempt from a well-formed state (`0 ≤ tokens ≤ rate`,
`1 ≤ rate ≤ maxInt64`, positive window, monotone reading) whose
`(elapsed + 1) * rate` fits `int64` computes identically under the machine
(`wrap64`) arithmetic and the exact arithmetic: no operation overflows. -/
theorem tryAcquireI64_eq_tryAcquire (l : Limiter) (now : Int)
    (h0 : 0 ≤ l.tokens) (hle : l.tokens ≤ l.rate) (hr : 1 ≤ l.rate)
    (hr64 : l.rate ≤ 9223372036854775807) (hw : 0 < l.window)
    (hm : l.lastTime ≤ now)
    (hstep : (now - l.lastTime + 1) * l.rate ≤ 9223372036854775807) :
    refillTokensI64 l now = refillTokens l now ∧
      tryAcquireI64 l now = tryAcquire l now := by
  have he : 0 ≤ now - l.lastTime := by omega
  have hexp : (now - l.lastTime + 1) * l.rate =
      (now - l.lastTime) * l.rate + l.rate := by ring
  have hp0 : 0 ≤ (now - l.lastTime) * l.rate := mul_nonneg he (by omega)
  have hpB : (now - l.lastTime) * l.rate ≤ 9223372036854775807 - l.rate := by
    linarith
  have heB : now - l.lastTime ≤ 9223372036854775807 := by
    have hee : now - l.lastTime ≤ (now - l.lastTime) * l.rate :=
      le_mul_of_one_le_right he hr
    linarith
  have hsat : satDur (now - l.lastTime) = now - l.lastTime := by
    rw [satDur]
    omega
  have hq0 : 0 ≤ Int.tdiv ((now - l.lastTime) * l.rate) l.window :=
    Int.tdiv_nonneg hp0 (by omega)
  have hqB : Int.tdiv ((now - l.lastTime) * l.rate) l.window ≤
      (now - l.lastTime) * l.rate := by
    rw [Int.tdiv_eq_ediv hp0 (by omega)]
    exact Int.ediv_le_self _ hp0
  have hwp : wrap64 ((now - l.lastTime) * l.rate) = (now - l.lastTime) * l.rate :=
    wrap64_eq_self _ (by linarith) (by linarith)
  have hwq : wrap64 (Int.tdiv ((now - l.lastTime) * l.rate) l.window) =
      Int.tdiv ((now - l.lastTime) * l.rate) l.window :=
    wrap64_eq_self _ (by linarith) (by linarith)
  have hws : wrap64 (l.tokens + Int.tdiv ((now - l.lastTime) * l.rate) l.window) =
      l.tokens + Int.tdiv ((now - l.lastTime) * l.rate) l.window :=
    wrap64_eq_self _ (by linarith) (by linarith)
  have hR : refillTokensI64 l now = refillTokens l now := by
    rw [refillTokensI64, refillTokens, hsat, hwp, hwq, hws]
  refine ⟨hR, ?_⟩
  unfold tryAcquireI64 tryAcquire
  rw [hR]

theorem runAttemptsI64_eq : ∀ (nows : List Int) (l : Limiter),
    Inv l → l.rate ≤ 9223372036854775807 → stepsOK l.rate l.lastTime nows = true →
    runAttemptsI64 l nows = runAttempts l nows
  | [], _, _, _, _ => rfl
  | now :: rest, l, hInv, hr64, hsteps => by
    rw [stepsOK, Bool.and_eq_true, Bool.and_eq_true, decide_eq_true_eq,
      decide_eq_true_eq] at hsteps
    obtain ⟨⟨hm, hstep⟩, htail⟩ := hsteps
    obtain ⟨h0, hle, hr, hw⟩ := hInv
    have heq := (tryAcquireI64_eq_tryAcquire l now h0 hle hr hr64 hw hm hstep).2
    have hInv1 : Inv (tryAcquire l now).2 := tryAcquire_inv l now ⟨h0, hle, hr, hw⟩ hm
    have hfr := tryAcquire_frame l now
    rw [runAttemptsI64, runAttempts, heq]
    exact runAttemptsI64_eq rest (tryAcquire l now).2 hInv1
      (by rw [hfr.1]; exact hr64) (by rw [hfr.1, hfr.2.2]; exact htail)

theorem stepsOK_mono : ∀ (xs : List Int) (r t : Int),
    stepsOK r t xs = true → monoFrom t xs = true
  | [], _, _, _ => rfl
  | x :: xs, r, t, h => by
    rw [stepsOK, Bool.and_eq_true, Bool.and_eq_true, decide_eq_true_eq,
      decide_eq_true_eq] at h
    rw [monoFrom, Bool.and_eq_true, decide_eq_true_eq]
    exact ⟨h.1.1, stepsOK_mono xs r x h.2⟩

theorem AcquireI64_cons_success (c : Int) (l : Limiter) (e : AcquireEvent)
    (rest : List AcquireEvent) (h : (tryAcquireI64 l e.now).1 = true) :
    AcquireI64 c l (e :: rest) =
      (some (Except.ok ()), (tryAcquireI64 l e.now).2, []) := by
  have h2 : tryAcquireI64 l e.now = (true, (tryAcquireI64 l e.now).2) := Prod.ext h rfl
  rw [AcquireI64, h2]

theorem AcquireI64_cons_cancel (c : Int) (l : Limiter) (e : AcquireEvent)
    (rest : List AcquireEvent) (h : (tryAcquireI64 l e.now).1 = false)
    (hs : e.sel = SelectOutcome.ctxDone) :
    AcquireI64 c l (e :: rest) =
      (some (Except.error c), (tryAcquireI64 l e.now).2,
        [waitInterval (tryAcquireI64 l e.now).2]) := by
  have h2 : tryAcquireI64 l e.now = (false, (tryAcquireI64 l e.now).2) := Prod.ext h rfl
  rw [AcquireI64, h2, hs]

theorem AcquireI64_cons_timer (c : Int) (l : Limiter) (e : AcquireEvent)
    (rest : List AcquireEvent) (h : (tryAcquireI64 l e.now).1 = false)
    (hs : e.sel = SelectOutcome.timerFired) :
    AcquireI64 c l (e :: rest) =
      ((AcquireI64 c (tryAcquireI64 l e.now).2 rest).1,
       (AcquireI64 c (tryAcquireI64 l e.now).2 rest).2.1,
       waitInterval (tryAcquireI64 l e.now).2 ::
         (AcquireI64 c (tryAcquireI64 l e.now).2 rest).2.2) := by
  have h2 : tryAcquireI64 l e.now = (false, (tryAcquireI64 l e.now).2) := Prod.ext h rfl
  rw [AcquireI64, h2, hs]

theorem AcquireI64_eq (c : Int) : ∀ (es : List AcquireEvent) (l : Limiter),
    Inv l → l.rate ≤ 9223372036854775807 →
    stepsOK l.rate l.lastTime (es.map AcquireEvent.now) = true →
    AcquireI64 c l es = Acquire c l es
  | [], _, _, _, _ => rfl
  | e :: rest, l, hInv, hr64, hsteps => by
    rw [List.map_cons, stepsOK, Bool.and_eq_true, Bool.and_eq_true,
      decide_eq_true_eq, decide_eq_true_eq] at hsteps
    obtain ⟨⟨hm, hstep⟩, htail⟩ := hsteps
    obtain ⟨h0, hle, hr, hw⟩ := hInv
    have heq := (tryAcquireI64_eq_tryAcquire l e.now h0 hle hr hr64 hw hm hstep).2
    have hInv1 : Inv (tryAcquire l e.now).2 := tryAcquire_inv l e.now ⟨h0, hle, hr, hw⟩ hm
    have hfr := tryAcquire_frame l e.now
    have ih := AcquireI64_eq c rest (tryAcquire l e.now).2 hInv1
      (by rw [hfr.1]; exact hr64) (by rw [hfr.1, hfr.2.2]; exact htail)
    by_cases hb : (tryAcquire l e.now).1 = true
    · rw [AcquireI64_cons_success c l e rest (by rw [heq]; exact hb),
        Acquire_cons_success c l e rest hb, heq]
    · have hb' : (tryAcquire l e.now).1 = false := by
        cases hx : (tryAcquire l e.now).1
        · rfl
        · exact absurd hx hb
      cases hs : e.sel
      · rw [AcquireI64_cons_cancel c l e rest (by rw [heq]; exact hb') hs,
          Acquire_cons_cancel c l e rest hb' hs, heq]
      · rw [AcquireI64_cons_timer c l e rest (by rw [heq]; exact hb') hs,
          Acquire_cons_timer c l e rest hb' hs, heq, ih]

/-! ## Characterizing when `Acquire` reports cancellation -/

theorem stateAt_zero (l : Limiter) (es : List AcquireEvent) : stateAt l es 0 = l := rfl

theorem eventAt_cons_zero (e : AcquireEvent) (rest : List AcquireEvent) :
    eventAt (e :: rest) 0 = e := rfl

theorem eventAt_cons_succ (e : AcquireEvent) (rest : List AcquireEvent) (k : Nat) :
    eventAt (e :: rest) (k + 1) = eventAt rest k := rfl

theorem stateAt_cons_succ (l : Limiter) (e : AcquireEvent) (rest : List AcquireEvent)
    (k : Nat) :
    stateAt l (e :: rest) (k + 1) = stateAt (tryAcquire l e.now).2 rest k := by
  simp [stateAt, List.take_succ_cons, runAttempts]

theorem failsAt_cons_zero (l : Limiter) (e : AcquireEvent) (rest : List AcquireEvent) :
    failsAt l (e :: rest) 0 = !(tryAcquire l e.now).1 := rfl

theorem failsAt_cons_succ (l : Limiter) (e : AcquireEvent) (rest : List AcquireEvent)
    (k : Nat) :
    failsAt l (e :: rest) (k + 1) = failsAt (tryAcquire l e.now).2 rest k := by
  rw [failsAt, failsAt, stateAt_cons_succ, eventAt_cons_succ]

theorem cancelSpec_cons_zero (l : Limiter) (e : AcquireEvent) (rest : List AcquireEvent) :
    cancelSpec l (e :: rest) 0 ↔
      (tryAcquire l e.now).1 = false ∧ e.sel = SelectOutcome.ctxDone := by
  rw [cancelSpec]
  constructor
  · rintro ⟨-, -, hfail, hsel⟩
    rw [failsAt_cons_zero, Bool.not_eq_true'] at hfail
    exact ⟨hfail, hsel⟩
  · rintro ⟨hfail, hsel⟩
    refine ⟨Nat.succ_pos _, fun j hj => absurd hj (Nat.not_lt_zero j), ?_, hsel⟩
    rw [failsAt_cons_zero, hfail]
    rfl

theorem cancelSpec_cons_succ (l : Limiter) (e : AcquireEvent) (rest : List AcquireEvent)
    (i : Nat) :
    cancelSpec l (e :: rest) (i + 1) ↔
      (tryAcquire l e.now).1 = false ∧ e.sel = SelectOutcome.timerFired ∧
        cancelSpec (tryAcquire l e.now).2 rest i := by
  constructor
  · rintro ⟨hlen, hguard, hfail, hsel⟩
    obtain ⟨h0f, h0s⟩ := hguard 0 (Nat.succ_pos i)
    rw [failsAt_cons_zero, Bool.not_eq_true'] at h0f
    refine ⟨h0f, h0s, by simp only [List.length_cons] at hlen; omega, ?_, ?_, ?_⟩
    · intro j hj
      obtain ⟨hf, hs⟩ := hguard (j + 1) (Nat.succ_lt_succ hj)
      rw [failsAt_cons_succ] at hf
      rw [eventAt_cons_succ] at hs
      exact ⟨hf, hs⟩
    · rw [failsAt_cons_succ] at hfail
      exact hfail
    · rw [eventAt_cons_succ] at hsel
      exact hsel
  · rintro ⟨h0f, h0s, hlen, hguard, hfail, hsel⟩
    refine ⟨by simpa using Nat.succ_lt_succ hlen, ?_, ?_, ?_⟩
    · intro j hj
      cases j with
      | zero =>
        rw [failsAt_cons_zero, h0f]
        exact ⟨rfl, h0s⟩
      | succ j =>
        rw [failsAt_cons_succ, eventAt_cons_succ]
        exact hguard j (Nat.succ_lt_succ_iff.mp hj)
    · rw [failsAt_cons_succ]
      exact hfail
    · rw [eventAt_cons_succ]
      exact hsel

theorem acquire_cancel_run (c : Int) : ∀ (es : List AcquireEvent) (l : Limiter) (i : Nat),
    cancelSpec l es i →
    (Acquire c l es).1 = some (Except.error c) ∧
      (Acquire c l es).2.1 = stateAt l es (i + 1)
  | [], _, i, hspec => absurd hspec.1 (Nat.not_lt_zero i)
  | e :: rest, l, 0, hspec => by
    obtain ⟨hfail, hsel⟩ := (cancelSpec_cons_zero l e rest).mp hspec
    rw [Acquire_cons_cancel c l e rest hfail hsel, stateAt_cons_succ, stateAt_zero]
    exact ⟨rfl, rfl⟩
  | e :: rest, l, i + 1, hspec => by
    obtain ⟨hfail, hsel, hspec'⟩ := (cancelSpec_cons_succ l e rest i).mp hspec
    rw [Acquire_cons_timer c l e rest hfail hsel, stateAt_cons_succ]
    exact acquire_cancel_run c rest (tryAcquire l e.now).2 i hspec'

theorem acquire_error_imp (c : Int) : ∀ (es : List AcquireEvent) (l : Limiter) (r : Int),
    (Acquire c l es).1 = some (Except.error r) → r = c
  | [], l, r => by
    rw [Acquire_nil]
    intro h
    exact absurd h (by simp)
  | e :: rest, l, r => by
    intro h
    by_cases hb : (tryAcquire l e.now).1 = true
    · rw [Acquire_cons_success c l e rest hb] at h
      simp at h
    · have hb' : (tryAcquire l e.now).1 = false := by
        cases hx : (tryAcquire l e.now).1
        · rfl
        · exact absurd hx hb
      cases hs : e.sel
      · rw [Acquire_cons_cancel c l e rest hb' hs] at h
        simp at h
        omega
      · rw [Acquire_cons_timer c l e rest hb' hs] at h
        exact acquire_error_imp c rest (tryAcquire l e.now).2 r h

theorem acquire_error_exists (c : Int) : ∀ (es : List AcquireEvent) (l : Limiter),
    (Acquire c l es).1 = some (Except.error c) → ∃ i, cancelSpec l es i
  | [], l => by
    rw [Acquire_nil]
    intro h
    exact absurd h (by simp)
  | e :: rest, l => by
    intro h
    by_cases hb : (tryAcquire l e.now).1 = true
    · rw [Acquire_cons_success c l e rest hb] at h
      simp at h
    · have hb' : (tryAcquire l e.now).1 = false := by
        cases hx : (tryAcquire l e.now).1
        · rfl
        · exact absurd hx hb
      cases hs : e.sel
      · exact ⟨0, (cancelSpec_cons_zero l e rest).mpr ⟨hb', hs⟩⟩
      · rw [Acquire_cons_timer c l e rest hb' hs] at h
        obtain ⟨i, hi⟩ := acquire_error_exists c rest (tryAcquire l e.now).2 h
        exact ⟨i + 1, (cancelSpec_cons_succ l e rest i).mpr ⟨hb', hs, hi⟩⟩

/-- The final limiter state of any `Acquire` run is the state after some
number of completed attempts: `Acquire` mutates the bucket only through
`tryAcquire`. -/
theorem acquire_state_runAttempts (c : Int) : ∀ (es : List AcquireEvent) (l : Limiter),
    ∃ k, (Acquire c l es).2.1 = stateAt l es k
  | [], l => ⟨0, rfl⟩
  | e :: rest, l => by
    by_cases hb : (tryAcquire l e.now).1 = true
    · refine ⟨1, ?_⟩
      rw [Acquire_cons_success c l e rest hb, stateAt_cons_succ, stateAt_zero]
    · have hb' : (tryAcquire l e.now).1 = false := by
        cases hx : (tryAcquire l e.now).1
        · rfl
        · exact absurd hx hb
      cases hs : e.sel
      · refine ⟨1, ?_⟩
        rw [Acquire_cons_cancel c l e rest hb' hs, stateAt_cons_succ, stateAt_zero]
      · obtain ⟨k, hk⟩ := acquire_state_runAttempts c rest (tryAcquire l e.now).2
        refine ⟨k + 1, ?_⟩
        rw [Acquire_cons_timer c l e rest hb' hs, stateAt_cons_succ]
        exact hk

theorem monoFrom_take : ∀ (xs : List Int) (t : Int) (k : Nat),
    monoFrom t xs = true → monoFrom t (xs.take k) = true
  | [], _, k, h => by simpa using h
  | _ :: _, _, 0, _ => rfl
  | x :: xs, t, k + 1, h => by
    rw [List.take_succ_cons, monoFrom, Bool.and_eq_true]
    rw [monoFrom, Bool.and_eq_true] at h
    exact ⟨h.1, monoFrom_take xs x k h.2⟩

/-! ## The claims -/

/-- The capacity bound for the exact-arithmetic model: valid whenever no
attempt's `int64` computation overflows (`tryAcquireI64_eq_tryAcquire`). -/
theorem capacity_bound_exact (C w t0 : Int) (hC : 1 ≤ C) (hw : 0 < w) :
    ∀ (ns : List Int), monoFrom t0 ns = true →
      0 ≤ (runAttempts (New C w t0) ns).tokens ∧
        (runAttempts (New C w t0) ns).tokens ≤ C := by
  intro ns hm
  have hInv : Inv (New C w t0) := by
    rw [Inv]
    refine ⟨?_, ?_, ?_, ?_⟩ <;> simp [New] <;> omega
  have h := runAttempts_inv ns (New C w t0) hInv hm
  have hr : (runAttempts (New C w t0) ns).rate = C := by
    rw [(runAttempts_frame ns (New C w t0)).1]
    rfl
  rw [Inv] at h
  have h21 := h.2.1
  exact ⟨h.1, by omega⟩

/-- C1, counterexample to the claim as stated: within its hypotheses
(capacity `10^10 >= 1`, window `1 > 0`, one monotone clock reading one
second after construction), the program's `int64` product
`elapsed.Nanoseconds() * int64(l.rate)` (limiter.go:74) wraps, and the
completed attempt leaves `tokens = -8446744063709551616 < 0`: the claimed
`0 <= tokens` is false of the code. -/
theorem claim_C1_capacity_bound_cex :
    (1 : Int) ≤ 10000000000 ∧ (0 : Int) < 1 ∧ monoFrom 0 [1000000000] = true ∧
      (runAttemptsI64 (New 10000000000 1 0) [1000000000]).tokens < 0 := by
  decide

/-- C1, amended: the capacity-bound invariant for the faithful `int64`
semantics, additionally assuming the machine arithmetic never overflows:
capacity at most `maxInt64` (true of any Go `int` value) and, at every
attempt, `(elapsed + 1) * capacity ≤ maxInt64` (`stepsOK`, which also
carries the clock's monotonicity).  Then `0 <= tokens <= C` after
construction, after every completed attempt, and after any `Acquire`
run. -/
theorem claim_C1_capacity_bound_amended (C w t0 : Int) (nows : List Int)
    (hC : 1 ≤ C) (hC64 : C ≤ 9223372036854775807) (hw : 0 < w)
    (hsteps : stepsOK C t0 nows = true) :
    (0 ≤ (New C w t0).tokens ∧ (New C w t0).tokens ≤ C) ∧
      (0 ≤ (runAttemptsI64 (New C w t0) nows).tokens ∧
        (runAttemptsI64 (New C w t0) nows).tokens ≤ C) ∧
      (∀ (ce : Int) (es : List AcquireEvent),
        stepsOK C t0 (es.map AcquireEvent.now) = true →
        0 ≤ (AcquireI64 ce (New C w t0) es).2.1.tokens ∧
          (AcquireI64 ce (New C w t0) es).2.1.tokens ≤ C) := by
  have hInv : Inv (New C w t0) := by
    rw [Inv]
    refine ⟨?_, ?_, ?_, ?_⟩ <;> simp [New] <;> omega
  refine ⟨⟨?_, ?_⟩, ?_, ?_⟩
  · simp [New]
    omega
  · simp [New]
  · rw [runAttemptsI64_eq nows (New C w t0) hInv hC64 hsteps]
    exact capacity_bound_exact C w t0 hC hw nows (stepsOK_mono nows C t0 hsteps)
  · intro ce es hes
    rw [AcquireI64_eq ce es (New C w t0) hInv hC64 hes]
    obtain ⟨k, hk⟩ := acquire_state_runAttempts ce es (New C w t0)
    rw [hk, stateAt]
    apply capacity_bound_exact C w t0 hC hw
    rw [List.map_take]
    exact monoFrom_take _ t0 k (stepsOK_mono _ C t0 hes)

theorem claim_C1_capacity_bound_amended_witness :
    (1 : Int) ≤ 2 ∧ (2 : Int) ≤ 9223372036854775807 ∧ (0 : Int) < 10 ∧
      stepsOK 2 0 [3, 5] = true ∧
      (0 ≤ (New 2 10 0).tokens ∧ (New 2 10 0).tokens ≤ 2) ∧
      (0 ≤ (runAttemptsI64 (New 2 10 0) [3, 5]).tokens ∧
        (runAttemptsI64 (New 2 10 0) [3, 5]).tokens ≤ 2) :=
  ⟨by decide, by decide, by decide, by decide,
    (claim_C1_capacity_bound_amended 2 10 0 [3, 5] (by decide) (by decide) (by decide)
      (by decide)).1,
    (claim_C1_capacity_bound_amended 2 10 0 [3, 5] (by decide) (by decide) (by decide)
      (by decide)).2.1⟩

/-- The refill arithmetic of the exact (non-wrapping) model: valid for the
machine whenever the attempt's `int64` computation does not overflow
(`tryAcquireI64_eq_tryAcquire`). -/
theorem refill_arithmetic_exact (l : Limiter) (now : Int)
    (h0 : 0 ≤ l.tokens) (hr : 1 ≤ l.rate) (hw : 0 < l.window) (hm : l.lastTime ≤ now) :
    (l.window * Int.tdiv ((now - l.lastTime) * l.rate) l.window ≤
        (now - l.lastTime) * l.rate ∧
      (now - l.lastTime) * l.rate <
        l.window * (Int.tdiv ((now - l.lastTime) * l.rate) l.window + 1)) ∧
    refillTokens l now =
      min (l.tokens + Int.tdiv ((now - l.lastTime) * l.rate) l.window) l.rate ∧
    (tryAcquire l now).2.lastTime = now ∧
    0 ≤ (tryAcquire l now).2.tokens ∧
    (now = l.lastTime + l.window → refillTokens l now = l.rate) := by
  have he : 0 ≤ (now - l.lastTime) * l.rate := mul_nonneg (by omega) (by omega)
  have htd : Int.tdiv ((now - l.lastTime) * l.rate) l.window =
      ((now - l.lastTime) * l.rate) / l.window := Int.tdiv_eq_ediv he (by omega)
  refine ⟨?_, rfl, (tryAcquire_frame l now).2.2, ?_, ?_⟩
  · rw [htd]
    have hdm := Int.ediv_add_emod ((now - l.lastTime) * l.rate) l.window
    have h1 := Int.emod_nonneg ((now - l.lastTime) * l.rate)
      (by omega : l.window ≠ 0)
    have h2 := Int.emod_lt_of_pos ((now - l.lastTime) * l.rate) hw
    have hexp : l.window * ((now - l.lastTime) * l.rate / l.window + 1) =
        l.window * ((now - l.lastTime) * l.rate / l.window) + l.window := by ring
    rw [hexp]
    exact ⟨by linarith, by linarith⟩
  · have hnn := refillTokens_nonneg l now h0 hr hw hm
    rw [tryAcquire_snd]
    dsimp only
    split <;> omega
  · intro hnow
    rw [refillTokens, hnow, add_sub_cancel_left,
      Int.mul_tdiv_cancel_left l.rate (by omega : l.window ≠ 0)]
    exact min_eq_right (le_add_of_nonneg_left h0)

/-- C2, counterexample to the claim as stated: within its hypotheses
(well-formed state with `tokens = rate = 10^10`, window `1 > 0`, monotone
reading one second later), the machine refill is the wrapped value
`-8446744073709551616`, not the clamped exact floor
`floor(10^19 / 1)`, and the completed attempt carries token debt below
zero: the claim's "exact integer arithmetic" description is false of the
code when `elapsed * rate` exceeds `int64`. -/
theorem claim_C2_refill_arithmetic_cex :
    (0 : Int) ≤ (⟨0, 10000000000, 1, 10000000000⟩ : Limiter).tokens ∧
    (1 : Int) ≤ (⟨0, 10000000000, 1, 10000000000⟩ : Limiter).rate ∧
    (0 : Int) < (⟨0, 10000000000, 1, 10000000000⟩ : Limiter).window ∧
    (⟨0, 10000000000, 1, 10000000000⟩ : Limiter).lastTime ≤ 1000000000 ∧
    refillTokensI64 ⟨0, 10000000000, 1, 10000000000⟩ 1000000000 ≠
      min ((⟨0, 10000000000, 1, 10000000000⟩ : Limiter).tokens +
        Int.tdiv ((1000000000 - (⟨0, 10000000000, 1, 10000000000⟩ : Limiter).lastTime) *
          (⟨0, 10000000000, 1, 10000000000⟩ : Limiter).rate)
          (⟨0, 10000000000, 1, 10000000000⟩ : Limiter).window)
        (⟨0, 10000000000, 1, 10000000000⟩ : Limiter).rate ∧
    (tryAcquireI64 ⟨0, 10000000000, 1, 10000000000⟩ 1000000000).2.tokens < 0 := by
  decide

/-- C2, amended: the refill arithmetic claim holds of the faithful `int64`
semantics on a well-formed state (`0 ≤ tokens ≤ rate ≤ maxInt64` — the
C1 invariant plus the range of a Go `int`) whenever the attempt's
arithmetic stays within `int64` (`(elapsed + 1) * rate ≤ maxInt64`): the
amount added before the clamp is exactly the mathematical floor of
`e * rate / window`, the result is clamped above to `rate`, `lastTime`
is set to `now` (the fractional remainder is discarded), the token count
never drops below zero, and advancing the clock by exactly the window
restores a full bucket before the take. -/
theorem claim_C2_refill_arithmetic_amended (l : Limiter) (now : Int)
    (h0 : 0 ≤ l.tokens) (hle : l.tokens ≤ l.rate) (hr : 1 ≤ l.rate)
    (hr64 : l.rate ≤ 9223372036854775807) (hw : 0 < l.window)
    (hm : l.lastTime ≤ now)
    (hstep : (now - l.lastTime + 1) * l.rate ≤ 9223372036854775807) :
    (l.window * Int.tdiv ((now - l.lastTime) * l.rate) l.window ≤
        (now - l.lastTime) * l.rate ∧
      (now - l.lastTime) * l.rate <
        l.window * (Int.tdiv ((now - l.lastTime) * l.rate) l.window + 1)) ∧
    refillTokensI64 l now =
      min (l.tokens + Int.tdiv ((now - l.lastTime) * l.rate) l.window) l.rate ∧
    (tryAcquireI64 l now).2.lastTime = now ∧
    0 ≤ (tryAcquireI64 l now).2.tokens ∧
    (now = l.lastTime + l.window → refillTokensI64 l now = l.rate) := by
  obtain ⟨hR, hT⟩ := tryAcquireI64_eq_tryAcquire l now h0 hle hr hr64 hw hm hstep
  rw [hR, hT]
  exact refill_arithmetic_exact l now h0 hr hw hm

theorem claim_C2_refill_arithmetic_amended_witness :
    (0 : Int) ≤ (⟨0, 1, 10, 3⟩ : Limiter).tokens ∧
    (⟨0, 1, 10, 3⟩ : Limiter).tokens ≤ (⟨0, 1, 10, 3⟩ : Limiter).rate ∧
    (1 : Int) ≤ (⟨0, 1, 10, 3⟩ : Limiter).rate ∧
    (⟨0, 1, 10, 3⟩ : Limiter).rate ≤ 9223372036854775807 ∧
    (0 : Int) < (⟨0, 1, 10, 3⟩ : Limiter).window ∧
    (⟨0, 1, 10, 3⟩ : Limiter).lastTime ≤ 7 ∧
    (7 - (⟨0, 1, 10, 3⟩ : Limiter).lastTime + 1) * (⟨0, 1, 10, 3⟩ : Limiter).rate ≤
      9223372036854775807 ∧
    (((⟨0, 1, 10, 3⟩ : Limiter).window *
          Int.tdiv ((7 - (⟨0, 1, 10, 3⟩ : Limiter).lastTime) * (⟨0, 1, 10, 3⟩ : Limiter).rate)
            (⟨0, 1, 10, 3⟩ : Limiter).window ≤
        (7 - (⟨0, 1, 10, 3⟩ : Limiter).lastTime) * (⟨0, 1, 10, 3⟩ : Limiter).rate ∧
      (7 - (⟨0, 1, 10, 3⟩ : Limiter).lastTime) * (⟨0, 1, 10, 3⟩ : Limiter).rate <
        (⟨0, 1, 10, 3⟩ : Limiter).window *
          (Int.tdiv ((7 - (⟨0, 1, 10, 3⟩ : Limiter).lastTime) * (⟨0, 1, 10, 3⟩ : Limiter).rate)
            (⟨0, 1, 10, 3⟩ : Limiter).window + 1)) ∧
    refillTokensI64 ⟨0, 1, 10, 3⟩ 7 =
      min ((⟨0, 1, 10, 3⟩ : Limiter).tokens +
        Int.tdiv ((7 - (⟨0, 1, 10, 3⟩ : Limiter).lastTime) * (⟨0, 1, 10, 3⟩ : Limiter).rate)
          (⟨0, 1, 10, 3⟩ : Limiter).window) (⟨0, 1, 10, 3⟩ : Limiter).rate ∧
    (tryAcquireI64 ⟨0, 1, 10, 3⟩ 7).2.lastTime = 7 ∧
    0 ≤ (tryAcquireI64 ⟨0, 1, 10, 3⟩ 7).2.tokens ∧
    (7 = (⟨0, 1, 10, 3⟩ : Limiter).lastTime + (⟨0, 1, 10, 3⟩ : Limiter).window →
      refillTokensI64 ⟨0, 1, 10, 3⟩ 7 = (⟨0, 1, 10, 3⟩ : Limiter).rate)) :=
  ⟨by decide, by decide, by decide, by decide, by decide, by decide, by decide,
    claim_C2_refill_arithmetic_amended ⟨0, 1, 10, 3⟩ 7 (by decide) (by decide) (by decide)
      (by decide) (by decide) (by decide) (by decide)⟩

/-- C3: Immediate grant up to capacity, then blocking: on a fresh limiter of
capacity `N >= 1` with the clock frozen at `t0`, each of the first `N`
`Acquire` calls succeeds on its very first attempt — returning before the
`select` is reached, so `clock.After` is never invoked (the returned
duration list is empty) — and leaves the state of one further completed
attempt.  The `(N+1)`-th call, from the drained state, can never return
success while the clock stays at `t0`, and invokes `clock.After` as soon as
it performs any step. -/
theorem claim_C3_immediate_then_blocking (N : Nat) (w t0 c : Int)
    (hN : 1 ≤ N) (hw : 0 < w) :
    (∀ (i : Nat), i < N → ∀ (e : AcquireEvent) (rest : List AcquireEvent), e.now = t0 →
      Acquire c (runAttempts (New (N : Int) w t0) (List.replicate i t0)) (e :: rest) =
        (some (Except.ok ()),
          runAttempts (New (N : Int) w t0) (List.replicate (i + 1) t0), [])) ∧
    (∀ (es : List AcquireEvent), (∀ e ∈ es, e.now = t0) →
      (Acquire c (runAttempts (New (N : Int) w t0) (List.replicate N t0)) es).1 ≠
        some (Except.ok ()) ∧
      (es ≠ [] →
        (Acquire c (runAttempts (New (N : Int) w t0) (List.replicate N t0)) es).2.2 ≠ [])) := by
  have hstate : ∀ (i : Nat),
      runAttempts (New (N : Int) w t0) (List.replicate i t0) =
        ⟨t0, max ((N : Int) - i) 0, w, (N : Int)⟩ := by
    intro i
    rw [← runCount_snd]
    exact (runCount_const w t0 (N : Int) i (N : Int) (by omega) le_rfl).2
  constructor
  · intro i hi e rest he
    have hta : tryAcquire (runAttempts (New (N : Int) w t0) (List.replicate i t0)) e.now =
        (true, ⟨t0, (N : Int) - i - 1, w, (N : Int)⟩) := by
      rw [hstate i, he]
      have hmax : max ((N : Int) - i) 0 = (N : Int) - i := by omega
      rw [hmax]
      exact tryAcquire_self_succ t0 w (N : Int) ((N : Int) - i) (by omega) (by omega)
    rw [Acquire_cons_success c _ e rest (by rw [hta]), hta, hstate (i + 1)]
    have hm2 : max ((N : Int) - (i + 1 : Nat)) 0 = (N : Int) - i - 1 := by
      push_cast
      omega
    rw [hm2]
  · intro es hall
    refine acquire_stuck c es _ ?_ ?_
    · rw [hstate N]
      show max ((N : Int) - N) 0 ≤ 0
      omega
    · intro e he
      rw [hstate N]
      exact hall e he

theorem claim_C3_immediate_then_blocking_witness :
    1 ≤ 1 ∧ (0 : Int) < 10 ∧ (0 : Nat) < 1 ∧
      Acquire 0 (runAttempts (New ((1 : Nat) : Int) 10 0) (List.replicate 0 0))
          [⟨0, SelectOutcome.timerFired⟩] =
        (some (Except.ok ()),
          runAttempts (New ((1 : Nat) : Int) 10 0) (List.replicate 1 0), []) :=
  ⟨by decide, by decide, by decide,
    (claim_C3_immediate_then_blocking 1 10 0 0 (by decide) (by decide)).1 0 (by decide)
      ⟨0, SelectOutcome.timerFired⟩ [] (by decide)⟩

/-- C5: Construction postcondition: for every capacity and window (no
restriction), `New` returns a limiter whose `tokens` equals the capacity
(full bucket), whose `lastTime` is the clock reading at construction, and
whose `rate` and `window` are the arguments. -/
theorem claim_C5_construction (rate window now : Int) :
    (New rate window now).tokens = rate ∧ (New rate window now).lastTime = now ∧
      (New rate window now).rate = rate ∧ (New rate window now).window = window :=
  ⟨rfl, rfl, rfl, rfl⟩

/-- C6: Wait-interval value: every duration that an `Acquire` run passes to
`clock.After` (one per failed attempt) equals `window / rate` of the
limiter, in Go's truncating integer (nanosecond) division; by C9 the
`window` and `rate` fields are the construction arguments. -/
theorem claim_C6_wait_interval (c : Int) (l : Limiter) (es : List AcquireEvent) (d : Int)
    (hd : d ∈ (Acquire c l es).2.2) : d = Int.tdiv l.window l.rate :=
  acquire_waits c es l d hd

theorem claim_C6_wait_interval_witness :
    5 ∈ (Acquire 0 ⟨0, 0, 10, 2⟩ [⟨0, SelectOutcome.ctxDone⟩]).2.2 ∧
      (5 : Int) = Int.tdiv (⟨0, 0, 10, 2⟩ : Limiter).window (⟨0, 0, 10, 2⟩ : Limiter).rate :=
  ⟨by decide,
    claim_C6_wait_interval 0 ⟨0, 0, 10, 2⟩ [⟨0, SelectOutcome.ctxDone⟩] 5 (by decide)⟩

/-- C9: Frame condition: neither a single attempt, nor any sequence of
attempts, nor a whole `Acquire` call (successful, failed, cancelled, or
still looping) changes the `rate` (capacity) or `window` fields; only
`lastTime` and `tokens` are mutated. -/
theorem claim_C9_config_immutable (l : Limiter) (now c : Int) (nows : List Int)
    (es : List AcquireEvent) :
    ((tryAcquire l now).2.rate = l.rate ∧ (tryAcquire l now).2.window = l.window) ∧
    ((runAttempts l nows).rate = l.rate ∧ (runAttempts l nows).window = l.window) ∧
    ((Acquire c l es).2.1.rate = l.rate ∧ (Acquire c l es).2.1.window = l.window) :=
  ⟨⟨(tryAcquire_frame l now).1, (tryAcquire_frame l now).2.1⟩,
   runAttempts_frame nows l, acquire_frame c es l⟩

/-- C10: A token-holding bucket grants even an already-cancelled caller:
the `select` that observes cancellation is reached only after a failed
attempt, so when the first attempt succeeds, `Acquire` returns success at
once — whatever the `select` outcome would have been, in particular when
the `Done` channel is already closed — and a token is consumed (the count
drops to one below the refilled value). -/
theorem claim_C10_cancelled_caller_grant (c : Int) (l : Limiter) (now : Int)
    (rest : List AcquireEvent) (h : (tryAcquire l now).1 = true) :
    Acquire c l (⟨now, SelectOutcome.ctxDone⟩ :: rest) =
      (some (Except.ok ()), (tryAcquire l now).2, []) ∧
    (tryAcquire l now).2.tokens = refillTokens l now - 1 := by
  constructor
  · exact Acquire_cons_success c l ⟨now, SelectOutcome.ctxDone⟩ rest h
  · have hpos : 0 < refillTokens l now := by
      by_contra hng
      rw [tryAcquire_nonpos l now (by omega)] at h
      simp at h
    rw [tryAcquire_pos l now hpos]

theorem claim_C10_cancelled_caller_grant_witness :
    (tryAcquire (New 1 15000000000 0) 0).1 = true ∧
      Acquire 7 (New 1 15000000000 0) [⟨0, SelectOutcome.ctxDone⟩] =
        (some (Except.ok ()), (tryAcquire (New 1 15000000000 0) 0).2, []) ∧
      (tryAcquire (New 1 15000000000 0) 0).2.tokens =
        refillTokens (New 1 15000000000 0) 0 - 1 :=
  ⟨by decide,
    (claim_C10_cancelled_caller_grant 7 (New 1 15000000000 0) 0 [] (by decide)).1,
    (claim_C10_cancelled_caller_grant 7 (New 1 15000000000 0) 0 [] (by decide)).2⟩

/-- C4: Cancellation is the only error and is propagated verbatim: any
error ever returned by `Acquire` is exactly the context's `ctx.Err()`
reason `c`; an error is returned precisely when the cancellation signal
wins the race of some iteration before any attempt succeeds
(`cancelSpec`); and in that case the returned limiter state is the state
right after that iteration's completed attempt — no further side effects
on the bucket occur once cancellation is observed. -/
theorem claim_C4_cancellation_only_error (c : Int) (l : Limiter) (es : List AcquireEvent) :
    (∀ r, (Acquire c l es).1 = some (Except.error r) → r = c) ∧
    ((∃ r, (Acquire c l es).1 = some (Except.error r)) ↔ ∃ i, cancelSpec l es i) ∧
    (∀ i, cancelSpec l es i → (Acquire c l es).2.1 = stateAt l es (i + 1)) := by
  refine ⟨fun r => acquire_error_imp c es l r, ⟨?_, ?_⟩,
    fun i hi => (acquire_cancel_run c es l i hi).2⟩
  · rintro ⟨r, hr⟩
    have hrc := acquire_error_imp c es l r hr
    rw [hrc] at hr
    exact acquire_error_exists c es l hr
  · rintro ⟨i, hi⟩
    exact ⟨c, (acquire_cancel_run c es l i hi).1⟩

theorem claim_C4_cancellation_only_error_witness :
    cancelSpec ⟨0, 0, 10, 1⟩ [⟨0, SelectOutcome.ctxDone⟩] 0 ∧
      (Acquire 7 ⟨0, 0, 10, 1⟩ [⟨0, SelectOutcome.ctxDone⟩]).2.1 =
        stateAt ⟨0, 0, 10, 1⟩ [⟨0, SelectOutcome.ctxDone⟩] (0 + 1) ∧
      (Acquire 7 ⟨0, 0, 10, 1⟩ [⟨0, SelectOutcome.ctxDone⟩]).1 = some (Except.error 7) :=
  ⟨⟨by decide, fun j hj => absurd hj (Nat.not_lt_zero j), by decide, rfl⟩,
    (claim_C4_cancellation_only_error 7 ⟨0, 0, 10, 1⟩ [⟨0, SelectOutcome.ctxDone⟩]).2.2 0
      ⟨by decide, fun j hj => absurd hj (Nat.not_lt_zero j), by decide, rfl⟩,
    by decide⟩

/-- C7: Concurrent no-double-spend: the mutex makes each attempt atomic, so
an interleaving of `M` concurrent callers' immediate attempts (no clock
advancement: every reading equals the construction time) is a serialization
into some list of `M` attempts.  Every such list produces exactly
`min M N` grants on a fresh capacity-`N` limiter, and exactly that many
tokens are consumed (`tokens` ends at `N - min M N`): no token is claimed
twice and every state seen is a completed-attempt state. -/
theorem claim_C7_concurrent_grants (N : Nat) (w t0 : Int) (hw : 0 < w)
    (nows : List Int) (hall : ∀ x ∈ nows, x = t0) :
    (((runCount (New (N : Int) w t0) nows).1 : Int) =
        min (nows.length : Int) (N : Int)) ∧
      (runCount (New (N : Int) w t0) nows).2.tokens =
        (N : Int) - min (nows.length : Int) (N : Int) := by
  obtain ⟨n, rfl⟩ : ∃ n, nows = List.replicate n t0 :=
    ⟨nows.length, List.eq_replicate_of_mem hall⟩
  rw [List.length_replicate,
    show New ((N : Nat) : Int) w t0 = (⟨t0, (N : Int), w, (N : Int)⟩ : Limiter) from rfl]
  have h := runCount_const w t0 (N : Int) n (N : Int) (by omega) le_rfl
  refine ⟨h.1, ?_⟩
  rw [h.2]
  show max ((N : Int) - n) 0 = (N : Int) - min (n : Int) (N : Int)
  omega

theorem claim_C7_concurrent_grants_witness :
    (0 : Int) < 10 ∧ (∀ x ∈ [(0 : Int), 0, 0], x = 0) ∧
      ((((runCount (New ((2 : Nat) : Int) 10 0) [0, 0, 0]).1 : Int) =
          min ((List.length [(0 : Int), 0, 0] : Nat) : Int) ((2 : Nat) : Int)) ∧
        (runCount (New ((2 : Nat) : Int) 10 0) [0, 0, 0]).2.tokens =
          ((2 : Nat) : Int) - min ((List.length [(0 : Int), 0, 0] : Nat) : Int) ((2 : Nat) : Int)) :=
  ⟨by decide, by decide,
    claim_C7_concurrent_grants 2 10 0 (by decide) [0, 0, 0] (by decide)⟩

/-- C8: No construction-time validation, and guarded divisions: `New`
builds a limiter from its arguments unconditionally — any capacity and
window, non-positive included, yield the corresponding record, with no
error signalled — and, under the precondition `capacity >= 1` and
`window > 0`, every state reachable by attempts or by an `Acquire` run
keeps `rate` and `window` nonzero, so both division sites
(`window / rate` for the wait interval, and the refill's division by
`window`) never divide by zero under that precondition. -/
theorem claim_C8_no_validation_nonzero_divisors (cap w t0 c : Int) (nows : List Int)
    (es : List AcquireEvent) (hc : 1 ≤ cap) (hw : 0 < w) :
    (∀ (r2 w2 t2 : Int), New r2 w2 t2 = ⟨t2, r2, w2, r2⟩) ∧
    ((runAttempts (New cap w t0) nows).rate ≠ 0 ∧
      (runAttempts (New cap w t0) nows).window ≠ 0) ∧
    ((Acquire c (New cap w t0) es).2.1.rate ≠ 0 ∧
      (Acquire c (New cap w t0) es).2.1.window ≠ 0) := by
  have hra := runAttempts_frame nows (New cap w t0)
  have hac := acquire_frame c es (New cap w t0)
  refine ⟨fun r2 w2 t2 => rfl, ⟨?_, ?_⟩, ⟨?_, ?_⟩⟩
  · rw [hra.1]
    show cap ≠ 0
    omega
  · rw [hra.2]
    show w ≠ 0
    omega
  · rw [hac.1]
    show cap ≠ 0
    omega
  · rw [hac.2]
    show w ≠ 0
    omega

theorem claim_C8_no_validation_nonzero_divisors_witness :
    (1 : Int) ≤ 1 ∧ (0 : Int) < 10 ∧
      ((∀ (r2 w2 t2 : Int), New r2 w2 t2 = ⟨t2, r2, w2, r2⟩) ∧
        ((runAttempts (New 1 10 0) [0]).rate ≠ 0 ∧
          (runAttempts (New 1 10 0) [0]).window ≠ 0) ∧
        ((Acquire 0 (New 1 10 0) [⟨0, SelectOutcome.ctxDone⟩]).2.1.rate ≠ 0 ∧
          (Acquire 0 (New 1 10 0) [⟨0, SelectOutcome.ctxDone⟩]).2.1.window ≠ 0)) :=
  ⟨by decide, by decide,
    claim_C8_no_validation_nonzero_divisors 1 10 0 0 [0] [⟨0, SelectOutcome.ctxDone⟩]
      (by decide) (by decide)⟩

end Ratelimiter
